import Mathlib

/-!
A shallow embedding of `src/dataset.py` (IMDB review corpus preparation:
vocabulary loading, two-level tokenization with clipping, corpus loading,
the length-local random batch sampler and the padding batch collator),
together with theorems settling the specification claims about it.

Conventions of the embedding:
* Python `int` values that are always non-negative are modelled as `ℕ`;
  corpus indices passed to `__getitem__` are modelled as `ℤ` because Python
  list indexing accepts negative indices.
* Fallible Python operations (`max([])` raising `ValueError`, out-of-range
  list indexing raising `IndexError`, failing loads) are modelled with
  `Option`: `none` is the raised exception.
* The external tokenizers (`PunktSentenceTokenizer`, `WordPunctTokenizer`)
  and the HTML-stripping regex are not part of the repository; they are
  parameters of the embedded functions.
* Randomness (`random.choice`, `random.sample`) is modelled by explicit
  oracle parameters; theorems quantify over all oracles that satisfy the
  documented contract of the corresponding Python function.
-/

namespace DatasetPy

/-- Python `max(list)`: the maximum of a list, raising (`none`) on the empty
list. `max(x::xs)` folds `max` over the tail starting from the head. -/
def pymax : List ℕ → Option ℕ
  | [] => none
  | x :: xs => some (xs.foldl max x)

/-- The per-item record produced by `ImdbReviewsDataset.__getitem__`
(`TItem = Dict[str, Union[TText, int]]` with keys
`txt`, `label`, `txt_len`, `snt_len`). -/
structure TItem where
  txt : List (List ℕ)
  label : ℕ
  txt_len : ℕ
  snt_len : ℕ
deriving DecidableEq, Repr

/-! ## Tokenization (`ImdbReviewsDataset.tokenize_plane_text`) -/

/-- The clipped nested token-id list built by `tokenize_plane_text`:
`[[self.vocab[w] for w in tokenize_w(s) if w in self._vocab.keys()][:snt_clip]
  for s in tokenize_s(text_plane)][:txt_clip]`
after lowercasing and HTML stripping.  `tokenize_s`, `tokenize_w` and
`strip_html` stand for the external sentence/word tokenizers and the regex
substitution; `vocab` is dictionary lookup (`none` = word absent, and absent
words are dropped, which is exactly `List.filterMap`). -/
def clipText (tokenize_s tokenize_w : String → List String)
    (strip_html : String → String) (vocab : String → Option ℕ)
    (snt_clip txt_clip : ℕ) (text_plane : String) : List (List ℕ) :=
  ((tokenize_s (strip_html text_plane.toLower)).map
      (fun s => ((tokenize_w s).filterMap vocab).take snt_clip)).take txt_clip

/-- Model of `tokenize_plane_text`: returns `(text, snt_len_max, txt_len)` where
`snt_len_max = max([len(snt) for snt in text])` and `txt_len = len(text)`.
`max` of an empty list raises `ValueError` in Python, modelled by `none`. -/
def tokenize_plane_text (tokenize_s tokenize_w : String → List String)
    (strip_html : String → String) (vocab : String → Option ℕ)
    (snt_clip txt_clip : ℕ) (text_plane : String) :
    Option (List (List ℕ) × ℕ × ℕ) :=
  match pymax ((clipText tokenize_s tokenize_w strip_html vocab snt_clip
      txt_clip text_plane).map List.length) with
  | some snt_len_max =>
    some (clipText tokenize_s tokenize_w strip_html vocab snt_clip txt_clip
        text_plane,
      snt_len_max,
      (clipText tokenize_s tokenize_w strip_html vocab snt_clip txt_clip
        text_plane).length)
  | none => none

/-! ## Vocabulary loading (`ImdbReviewsDataset.get_imdb_vocab`) -/

/-- Python `dict(pairs)` lookup: for duplicate keys the LAST binding wins,
so the value is the second component of the last matching pair. -/
def pyDict (pairs : List (String × ℕ)) (w : String) : Option ℕ :=
  ((pairs.filter (fun p => p.1 = w)).getLast?).map (fun p => p.2)

/-- Model of `get_imdb_vocab`: the file's lines are `words`;
`ids = list(range(1, len(words) + 1))`; result is `dict(zip(words, ids))`
(id `0` is kept for the padding token). -/
def get_imdb_vocab (words : List String) : String → Option ℕ :=
  pyDict (words.zip (List.range' 1 words.length))

/-! ## The corpus (`ImdbReviewsDataset` data fields and `__getitem__`) -/

/-- The data fields of `ImdbReviewsDataset` filled by `_load_data`
(the stored file paths are omitted: no claim mentions them). -/
structure ImdbReviewsDataset where
  texts : List (List (List ℕ))
  labels : List ℕ
  txt_lens : List ℕ
  snt_lens : List ℕ
deriving DecidableEq, Repr

/-- Python list indexing `xs[i]`: a negative index `i` with
`-len(xs) <= i < 0` addresses `xs[len(xs) + i]`; outside
`[-len(xs), len(xs))` an `IndexError` is raised (`none`). -/
def pyGetElem {α : Type} (xs : List α) (i : ℤ) : Option α :=
  if 0 ≤ i then xs[i.toNat]?
  else if 0 ≤ (xs.length : ℤ) + i then xs[((xs.length : ℤ) + i).toNat]?
  else none

/-- Model of `ImdbReviewsDataset.__getitem__`: builds the `TItem` dictionary from the
four parallel lists; the first failing list access raises (`none`).
(The `lru_cache` decorator only memoizes this pure lookup.) -/
def getitem (d : ImdbReviewsDataset) (i : ℤ) : Option TItem :=
  match pyGetElem d.texts i, pyGetElem d.labels i,
      pyGetElem d.txt_lens i, pyGetElem d.snt_lens i with
  | some t, some l, some tl, some sl => some ⟨t, l, tl, sl⟩
  | _, _, _, _ => none

/-! ## Corpus loading (`ImdbReviewsDataset._load_data`) -/

/-- The part of the file system `_load_data` looks at: the list of contents
of the `*_*.txt` files under `root/neg` and under `root/pos`, in glob order;
`none` means the directory (or the root above it) does not exist. -/
structure FileSys where
  neg : Option (List String)
  pos : Option (List String)

/-- Behavior of `pathlib.Path.glob` on a directory: if the directory does not exist the
glob yields no entries (pathlib's selector returns an empty iterator when
the parent is not a directory); no exception is raised. -/
def globD (d : Option (List String)) : List String :=
  d.getD []

/-- Model of `ImdbReviewsDataset._load_data`, parameterized by the tokenizer
`tok` (an instantiation of `tokenize_plane_text`): files of `neg` (label 0)
then files of `pos` (label 1) are read in order and appended to the parallel
lists; a tokenization failure aborts the whole load (`none`). -/
def load_data (tok : String → Option (List (List ℕ) × ℕ × ℕ))
    (fs : FileSys) : Option ImdbReviewsDataset :=
  ((globD fs.neg).map (fun c => (c, 0)) ++
      (globD fs.pos).map (fun c => (c, 1))).foldlM
    (fun (d : ImdbReviewsDataset) (cf : String × ℕ) => (tok cf.1).map
      (fun (r : List (List ℕ) × ℕ × ℕ) =>
      { texts := d.texts ++ [r.1]
        labels := d.labels ++ [cf.2]
        txt_lens := d.txt_lens ++ [r.2.2]
        snt_lens := d.snt_lens ++ [r.2.1] }))
    ⟨[], [], [], []⟩

/-! ## Batch collation (`collate_docs`) -/

/-- One write `docs_tensor[i_doc, i_snt, 0:snt_len] = torch.tensor(snt)`:
row `j` of the matrix gets its first `len(snt)` cells replaced by `snt`.
(If `j` is out of range `List.set` is the identity; torch would raise
there, but under the corpus-item invariants assumed by the claims every
write is in bounds.) -/
def writeRow (mat : List (List ℕ)) (j : ℕ) (snt : List ℕ) : List (List ℕ) :=
  mat.set j (snt ++ (mat.getD j []).drop snt.length)

/-- The loop `for i_snt, snt in enumerate(item['txt'])` writing the
sentences of one document into its matrix, starting at row `j`. -/
def fillDocAux (j : ℕ) : List (List ℕ) → List (List ℕ) → List (List ℕ)
  | [], mat => mat
  | snt :: rest, mat => fillDocAux (j + 1) rest (writeRow mat j snt)

/-- Writing all sentences of a document into a zero matrix, rows from 0. -/
def fillDoc (txt : List (List ℕ)) (mat : List (List ℕ)) : List (List ℕ) :=
  fillDocAux 0 txt mat

/-- Model of `collate_docs`.  `max_snt` and `max_txt` are Python `max` over the batch
statistics (raising on an empty batch, modelled by `none`).  The label
tensor is `torch.zeros((n_docs, 1))` with row `i` set to `item['label']`;
the feature tensor is `torch.zeros((n_docs, max_txt, max_snt))` where the
slice of document `i` is filled by the writes of `fillDoc` — iteration `i`
of the Python loop touches exactly slice `i`, so the loop is rendered as a
`map` over the batch. -/
def collate_docs (batch : List TItem) :
    Option (List (List (List ℕ)) × List (List ℕ)) :=
  match pymax (batch.map (fun item => item.snt_len)),
      pymax (batch.map (fun item => item.txt_len)) with
  | some max_snt, some max_txt =>
    some (batch.map (fun item =>
        fillDoc item.txt (List.replicate max_txt (List.replicate max_snt 0))),
      batch.map (fun item => [item.label]))
  | _, _ => none

/-! ## The sampler (`SimilarRandSampler`) -/

/-- Model of `np.argsort(keys)`: a permutation of `0 .. len(keys) - 1` arranging the
keys in non-decreasing order (modelled with a stable merge sort; every claim
below only uses that the result is a permutation of `List.range`). -/
def argsort (keys : List ℤ) : List ℕ :=
  (List.range keys.length).insertionSort
    (fun i j => keys.getD i 0 ≤ keys.getD j 0)

/-- The state built by `SimilarRandSampler.__init__`. -/
structure SimilarRandSampler where
  ids : List ℕ
  bs : ℕ
  k : ℕ
  len : ℕ
deriving DecidableEq, Repr

/-- Model of `SimilarRandSampler.__init__`: `assert (bs >= 1) & (diversity >= 1)`
(a failing assert raises, modelled by `none`), then stores
`self._ids = np.argsort(keys).tolist()`, `self._bs = bs`,
`self._k = diversity` and `self._len = int(np.ceil(len(ids) / bs))`. -/
def SimilarRandSampler_init (keys : List ℤ) (bs diversity : ℕ) :
    Option SimilarRandSampler :=
  if 1 ≤ bs ∧ 1 ≤ diversity then
    some ⟨argsort keys, bs, diversity, (keys.length + bs - 1) / bs⟩
  else none

/-- One pass of the `while cur_ids:` loop body of
`SimilarRandSampler.__iter__`, at anchor position `idx`:
`lb = max(0, idx - k*bs)` (truncated `ℕ` subtraction),
`rb = min(len(cur_ids), idx + k*bs)`,
`batch = random.sample(cur_ids[lb:rb], min(bs, rb - lb))` (the random draw
is the oracle `sample`, applied to the window slice and the draw count), and
`cur_ids = [e for e in cur_ids if e not in batch]`.
Returns `(batch, new cur_ids)`. -/
def samplerStep (bs k : ℕ) (sample : List ℕ → ℕ → List ℕ)
    (pool : List ℕ) (idx : ℕ) : List ℕ × List ℕ :=
  let lb := idx - k * bs
  let rb := min pool.length (idx + k * bs)
  let window := (pool.drop lb).take (rb - lb)
  let batch := sample window (min bs (rb - lb))
  (batch, pool.filter (fun e => decide (e ∉ batch)))

/-- The `while cur_ids:` loop of `SimilarRandSampler.__iter__`.  The anchor
oracle models `random.choice(range(len(cur_ids)))` (reduced mod the pool
size, so any in-range value is realizable); `sample` models `random.sample`,
indexed by the step number.  The fuel argument only bounds the recursion:
with fuel `≥ pool.length` it is never exhausted (each step removes at least
one element). -/
def samplerIterAux (bs k : ℕ) (anchor : ℕ → ℕ)
    (sample : ℕ → List ℕ → ℕ → List ℕ) :
    ℕ → ℕ → List ℕ → List ℕ
  | 0, _, _ => []
  | fuel + 1, step, pool =>
    if pool.isEmpty then []
    else
      (samplerStep bs k (sample step) pool (anchor step % pool.length)).1 ++
        samplerIterAux bs k anchor sample fuel (step + 1)
          (samplerStep bs k (sample step) pool (anchor step % pool.length)).2

/-- Model of `SimilarRandSampler.__iter__` starting from a given id pool
(`cur_ids = self._ids.copy()`): the concatenation of the drawn batches. -/
def samplerIter (bs k : ℕ) (anchor : ℕ → ℕ)
    (sample : ℕ → List ℕ → ℕ → List ℕ) (ids : List ℕ) : List ℕ :=
  samplerIterAux bs k anchor sample ids.length 0 ids

/-- A full iteration of a sampler constructed from `keys`, `bs`, `k`. -/
def SimilarRandSampler_iter (keys : List ℤ) (bs k : ℕ) (anchor : ℕ → ℕ)
    (sample : ℕ → List ℕ → ℕ → List ℕ) : List ℕ :=
  samplerIter bs k anchor sample (argsort keys)

/-- The contract `random.sample(population, n)` satisfies for every `n ≤
len(population)`: the result has exactly `n` elements and is a
sub-permutation of the population (`n` distinct positions are drawn). -/
def ValidSample (sample : ℕ → List ℕ → ℕ → List ℕ) : Prop :=
  ∀ i l n, n ≤ l.length → (sample i l n).length = n ∧ (sample i l n).Subperm l

/-- The deterministic oracle that always draws the first `n` window
elements; it satisfies the `random.sample` contract and is used to witness
the sampler theorems. -/
def takeSample : ℕ → List ℕ → ℕ → List ℕ :=
  fun _ l n => l.take n

/-! ## Helper lemmas -/

theorem le_foldl_max (xs : List ℕ) : ∀ a : ℕ, a ≤ xs.foldl max a := by
  induction xs with
  | nil => intro a; exact le_refl a
  | cons x xs ih =>
    intro a
    exact le_trans (le_max_left a x) (ih (max a x))

theorem mem_le_foldl_max (xs : List ℕ) :
    ∀ (a x : ℕ), x ∈ xs → x ≤ xs.foldl max a := by
  induction xs with
  | nil => intro a x hx; cases hx
  | cons y ys ih =>
    intro a x hx
    rcases List.mem_cons.mp hx with rfl | hx
    · exact le_trans (le_max_right a x) (le_foldl_max ys (max a x))
    · exact ih (max a y) x hx

theorem pymax_eq_none_iff (l : List ℕ) : pymax l = none ↔ l = [] := by
  cases l with
  | nil => simp [pymax]
  | cons x xs => simp [pymax]

theorem le_of_mem_pymax {l : List ℕ} {m x : ℕ}
    (hm : pymax l = some m) (hx : x ∈ l) : x ≤ m := by
  cases l with
  | nil => cases hx
  | cons y ys =>
    simp only [pymax, Option.some.injEq] at hm
    subst hm
    rcases List.mem_cons.mp hx with rfl | hx
    · exact le_foldl_max ys x
    · exact mem_le_foldl_max ys y x hx

theorem pyDict_mem {pairs : List (String × ℕ)} {w : String} {n : ℕ}
    (h : pyDict pairs w = some n) : (w, n) ∈ pairs := by
  unfold pyDict at h
  rcases Option.map_eq_some'.mp h with ⟨p, hlast, hval⟩
  have hp : p ∈ pairs.filter (fun q => decide (q.1 = w)) := by
    rcases List.getLast?_eq_some_iff.mp hlast with ⟨ys, hys⟩
    rw [hys]; simp
  rcases List.mem_filter.mp hp with ⟨hmem, hkey⟩
  have hkey2 : p.1 = w := of_decide_eq_true hkey
  have : p = (w, n) := by
    cases p with
    | mk a b => simp only at hkey2 hval; rw [hkey2, hval]
  rw [this] at hmem
  exact hmem

theorem pyDict_eq_none_of_forall {pairs : List (String × ℕ)} {w : String}
    (h : ∀ p ∈ pairs, p.1 ≠ w) : pyDict pairs w = none := by
  unfold pyDict
  have : pairs.filter (fun q => decide (q.1 = w)) = [] := by
    rw [List.filter_eq_nil_iff]
    intro p hp
    simpa using h p hp
  rw [this]
  rfl

theorem foldlM_option_none {α β : Type} (f : β → α → Option β)
    (l : List α) (a : α) (ha : a ∈ l) (hf : ∀ b, f b a = none) :
    ∀ init : β, l.foldlM f init = none := by
  induction l with
  | nil => cases ha
  | cons x xs ih =>
    intro init
    rcases List.mem_cons.mp ha with rfl | ha
    · rw [List.foldlM_cons, hf init]
      rfl
    · rw [List.foldlM_cons]
      cases hfx : f init x with
      | none => rfl
      | some b => exact ih ha b

theorem pyGetElem_eq_none_iff {α : Type} (xs : List α) (i : ℤ) :
    pyGetElem xs i = none ↔
      ((xs.length : ℤ) ≤ i ∨ i < -(xs.length : ℤ)) := by
  unfold pyGetElem
  by_cases h0 : 0 ≤ i
  · rw [if_pos h0]
    constructor
    · intro h
      left
      have := List.getElem?_eq_none_iff.mp h
      omega
    · intro h
      apply List.getElem?_eq_none
      omega
  · rw [if_neg h0]
    by_cases h1 : 0 ≤ (xs.length : ℤ) + i
    · rw [if_pos h1]
      constructor
      · intro h
        have := List.getElem?_eq_none_iff.mp h
        omega
      · intro h; omega
    · rw [if_neg h1]
      constructor
      · intro _; right; omega
      · intro _; rfl

theorem pyGetElem_nonneg {α : Type} (xs : List α) (i : ℤ) (d : α)
    (h0 : 0 ≤ i) (hL : i < (xs.length : ℤ)) :
    pyGetElem xs i = some (xs.getD i.toNat d) := by
  unfold pyGetElem
  rw [if_pos h0]
  have hlt : i.toNat < xs.length := by omega
  rw [List.getD_eq_getElem?_getD, List.getElem?_eq_getElem hlt]
  rfl

theorem pyGetElem_neg {α : Type} (xs : List α) (i : ℤ) (d : α)
    (hn : i < 0) (hg : -(xs.length : ℤ) ≤ i) :
    pyGetElem xs i = some (xs.getD ((xs.length : ℤ) + i).toNat d) := by
  unfold pyGetElem
  rw [if_neg (by omega), if_pos (by omega)]
  have hlt : ((xs.length : ℤ) + i).toNat < xs.length := by omega
  rw [List.getD_eq_getElem?_getD, List.getElem?_eq_getElem hlt]
  rfl

theorem pyDict_of_nodup_keys {pairs : List (String × ℕ)} {w : String} {n : ℕ}
    (hnd : (pairs.map Prod.fst).Nodup) (hmem : (w, n) ∈ pairs) :
    pyDict pairs w = some n := by
  induction pairs with
  | nil => cases hmem
  | cons p ps ih =>
    have hps : p.1 ∉ ps.map Prod.fst := (List.nodup_cons.mp hnd).1
    rcases List.mem_cons.mp hmem with rfl | hmem2
    · have hfil : ps.filter (fun q => decide (q.1 = w)) = [] := by
        rw [List.filter_eq_nil_iff]
        intro q hq hdec
        have hq1 : q.1 = w := of_decide_eq_true hdec
        have hin : q.1 ∈ ps.map Prod.fst := List.mem_map_of_mem Prod.fst hq
        rw [hq1] at hin
        exact hps hin
      unfold pyDict
      rw [List.filter_cons, if_pos (by simp), hfil]
      rfl
    · have hne : p.1 ≠ w := by
        intro he
        have : w ∈ ps.map Prod.fst := by
          have := List.mem_map_of_mem Prod.fst hmem2
          simpa using this
        exact hps (he ▸ this)
      have step : pyDict (p :: ps) w = pyDict ps w := by
        unfold pyDict
        rw [List.filter_cons, if_neg (by simpa using hne)]
      rw [step]
      exact ih (List.nodup_cons.mp hnd).2 hmem2

/-! ## Claim theorems -/

/-- Claim C3: for every raw input text, tokenizers, vocabulary and clip
parameters, the document returned by `tokenize_plane_text` contains at most
`txt_clip` sentences, every sentence in it contains at most `snt_clip` word
ids, and the returned document length equals the number of clipped
sentences. -/
theorem tokenize_clip_invariant (ts tw : String → List String)
    (sh : String → String) (v : String → Option ℕ) (sc tc : ℕ) (tp : String)
    (text : List (List ℕ)) (m n : ℕ)
    (h : tokenize_plane_text ts tw sh v sc tc tp = some (text, m, n)) :
    text.length ≤ tc ∧ (∀ snt ∈ text, snt.length ≤ sc) ∧ n = text.length := by
  unfold tokenize_plane_text at h
  cases hp : pymax ((clipText ts tw sh v sc tc tp).map List.length) with
  | none => rw [hp] at h; cases h
  | some m2 =>
    rw [hp] at h
    have htext : text = clipText ts tw sh v sc tc tp := by
      have := congrArg (fun o => o.map Prod.fst) h
      simpa using this.symm
    have hn : n = (clipText ts tw sh v sc tc tp).length := by
      have := congrArg (fun o => o.map (fun r => r.2.2)) h
      simpa using this.symm
    subst htext
    refine ⟨?_, ?_, hn⟩
    · unfold clipText
      rw [List.length_take]
      exact min_le_left _ _
    · intro snt hsnt
      unfold clipText at hsnt
      have hsnt2 := List.mem_of_mem_take hsnt
      rcases List.mem_map.mp hsnt2 with ⟨s, _, hs⟩
      rw [← hs, List.length_take]
      exact min_le_left _ _

/-- Witness for C3 at a concrete instantiation: one sentence of one
in-vocabulary word with both clips set to 2. -/
theorem tokenize_clip_invariant_witness :
    ([[5]] : List (List ℕ)).length ≤ 2 ∧
      (∀ snt ∈ ([[5]] : List (List ℕ)), snt.length ≤ 2) ∧
      1 = ([[5]] : List (List ℕ)).length :=
  tokenize_clip_invariant (fun _ => ["x"]) (fun _ => ["w"]) id
    (fun _ => some 5) 2 2 "a" [[5]] 1 1 rfl

/-- Claim C4 counterexample: a vocabulary file with the duplicate lines
`["a", "a"]` (N = 2) loads to the dictionary `{"a": 2}`: id `1` is not a
mapped value, so the loaded mapping is not a bijection between the file's
words and `1..N`. -/
theorem vocab_dup_counterexample :
    get_imdb_vocab ["a", "a"] "a" = some 2 ∧
      ∀ w, get_imdb_vocab ["a", "a"] w ≠ some 1 := by
  constructor
  · decide
  · intro w h
    have hmem : (w, 1) ∈ (["a", "a"].zip (List.range' 1 2)) := pyDict_mem h
    have hw : w = "a" := by
      have hzip : (["a", "a"].zip (List.range' 1 2)) =
          [("a", (1 : ℕ)), ("a", 2)] := rfl
      have h2 : (w, 1) ∈ [("a", (1 : ℕ)), ("a", 2)] := by
        rw [← hzip]; exact hmem
      rcases List.mem_cons.mp h2 with he | he2
      · exact (Prod.mk.injEq w 1 "a" 1).mp he |>.1
      · rcases List.mem_cons.mp he2 with he3 | he4
        · cases (Prod.mk.injEq w 1 "a" 2).mp he3 |>.2
        · cases he4
    rw [hw] at h
    exact absurd h (by decide)

/-- Claim C4 (amended): for every vocabulary file whose N lines are
pairwise distinct, the loaded mapping sends the i-th word (0-based file
order) to id i+1, every mapped id arises that way (so the ids are exactly
1..N, in bijection with the file's words), words outside the file are
unmapped, and id 0 is never a mapped value.  (The claim as stated over all
files fails when lines repeat: see the counterexample.) -/
theorem vocab_bijection_of_nodup (words : List String) (hnd : words.Nodup) :
    (∀ (i : ℕ) (hi : i < words.length),
        get_imdb_vocab words (words.get ⟨i, hi⟩) = some (i + 1)) ∧
      (∀ w n, get_imdb_vocab words w = some n →
        1 ≤ n ∧ n ≤ words.length ∧
          ∃ (i : ℕ) (hi : i < words.length),
            words.get ⟨i, hi⟩ = w ∧ n = i + 1) ∧
      (∀ w, w ∉ words → get_imdb_vocab words w = none) ∧
      (∀ w, get_imdb_vocab words w ≠ some 0) := by
  have hlen : (List.range' 1 words.length).length = words.length :=
    List.length_range' 1 1 words.length
  have hziplen : (words.zip (List.range' 1 words.length)).length =
      words.length := by
    rw [List.length_zip, hlen, min_self]
  have h2 : ∀ w n, get_imdb_vocab words w = some n →
      1 ≤ n ∧ n ≤ words.length ∧
        ∃ (i : ℕ) (hi : i < words.length),
          words.get ⟨i, hi⟩ = w ∧ n = i + 1 := by
    intro w n h
    have hmem : (w, n) ∈ words.zip (List.range' 1 words.length) :=
      pyDict_mem h
    rcases List.mem_iff_getElem.mp hmem with ⟨j, hj, he⟩
    rw [List.getElem_zip] at he
    have hjw : j < words.length := by rw [hziplen] at hj; exact hj
    have hw : words[j] = w := congrArg Prod.fst he
    have hn : (List.range' 1 words.length)[j] = n := congrArg Prod.snd he
    rw [List.getElem_range'] at hn
    refine ⟨by omega, by omega, j, hjw, ?_, by omega⟩
    rw [List.get_eq_getElem]
    exact hw
  refine ⟨?_, h2, ?_, ?_⟩
  · intro i hi
    apply pyDict_of_nodup_keys
    · rw [List.map_fst_zip words _ (le_of_eq hlen.symm)]
      exact hnd
    · rw [List.mem_iff_getElem]
      refine ⟨i, by rw [hziplen]; exact hi, ?_⟩
      rw [List.getElem_zip, List.getElem_range']
      rw [List.get_eq_getElem]
      have : 1 + 1 * i = i + 1 := by omega
      rw [this]
  · intro w hw
    apply pyDict_eq_none_of_forall
    intro p hp hpe
    exact hw (hpe ▸ (List.of_mem_zip hp).1)
  · intro w h
    rcases h2 w 0 h with ⟨h10, _, _⟩
    omega

/-- Witness for the amended C4 at the two-line file `["a", "b"]`. -/
theorem vocab_bijection_witness :
    (["a", "b"] : List String).Nodup ∧
      ((∀ (i : ℕ) (hi : i < (["a", "b"] : List String).length),
          get_imdb_vocab ["a", "b"]
            ((["a", "b"] : List String).get ⟨i, hi⟩) = some (i + 1)) ∧
        (∀ w n, get_imdb_vocab ["a", "b"] w = some n →
          1 ≤ n ∧ n ≤ (["a", "b"] : List String).length ∧
            ∃ (i : ℕ) (hi : i < (["a", "b"] : List String).length),
              (["a", "b"] : List String).get ⟨i, hi⟩ = w ∧ n = i + 1) ∧
        (∀ w, w ∉ (["a", "b"] : List String) →
          get_imdb_vocab ["a", "b"] w = none) ∧
        (∀ w, get_imdb_vocab ["a", "b"] w ≠ some 0)) :=
  ⟨by decide, vocab_bijection_of_nodup ["a", "b"] (by decide)⟩

/-- Claim C5: if some document of the corpus tokenizes to zero sentences
after clipping, the max-sentence-length statistic is `max([])`, which
raises, and the raise happens inside `_load_data`: the whole load fails and
no corpus (with or without a sentinel statistic) is produced. -/
theorem empty_document_fatal (ts tw : String → List String)
    (sh : String → String) (v : String → Option ℕ) (sc tc : ℕ)
    (fs : FileSys) (content : String)
    (hmem : content ∈ globD fs.neg ∨ content ∈ globD fs.pos)
    (hempty : clipText ts tw sh v sc tc content = []) :
    load_data (tokenize_plane_text ts tw sh v sc tc) fs = none := by
  have htok : tokenize_plane_text ts tw sh v sc tc content = none := by
    unfold tokenize_plane_text
    rw [hempty]
    rfl
  unfold load_data
  cases hmem with
  | inl h =>
    apply foldlM_option_none _ _ ((content, (0 : ℕ)))
    · exact List.mem_append_left _
        (List.mem_map_of_mem (fun c => (c, (0 : ℕ))) h)
    · intro b
      rw [htok]
      rfl
  | inr h =>
    apply foldlM_option_none _ _ ((content, (1 : ℕ)))
    · exact List.mem_append_right _
        (List.mem_map_of_mem (fun c => (c, (1 : ℕ))) h)
    · intro b
      rw [htok]
      rfl

/-- Witness for C5: a one-file corpus whose document yields no sentences. -/
theorem empty_document_fatal_witness :
    ("" ∈ globD (some [""]) ∨ "" ∈ globD none) ∧
      load_data (tokenize_plane_text (fun _ => []) (fun _ => []) id
        (fun _ => none) 100 40) ⟨some [""], none⟩ = none :=
  ⟨Or.inl (List.mem_singleton.mpr rfl),
    empty_document_fatal (fun _ => []) (fun _ => []) id (fun _ => none)
      100 40 ⟨some [""], none⟩ "" (Or.inl (List.mem_singleton.mpr rfl)) rfl⟩

/-- Claim C7 counterexample: on a corpus of length 1 the index -1 lies
outside [0, 1), yet `__getitem__` returns an item (Python negative
indexing), so `get` does not fail on every out-of-range index. -/
theorem getitem_negative_counterexample :
    ((-1 : ℤ) < 0 ∨ (1 : ℤ) ≤ (-1 : ℤ)) ∧
      getitem ⟨[[[7]]], [1], [1], [1]⟩ (-1) = some ⟨[[7]], 1, 1, 1⟩ := by
  exact ⟨Or.inl (by decide), by decide⟩

/-- Claim C7 (amended): with the four parallel lists of equal length L,
`__getitem__` raises IndexError exactly when the index is `≥ L` or `< -L`;
indices in `[0, L)` return the parallel entries at `i`, and negative
indices in `[-L, 0)` return the entries at `L + i` (Python negative
indexing), not an error. -/
theorem getitem_bounds (d : ImdbReviewsDataset) (i : ℤ)
    (hl : d.labels.length = d.texts.length)
    (htl : d.txt_lens.length = d.texts.length)
    (hsl : d.snt_lens.length = d.texts.length) :
    (getitem d i = none ↔
      ((d.texts.length : ℤ) ≤ i ∨ i < -(d.texts.length : ℤ))) ∧
      (0 ≤ i → i < (d.texts.length : ℤ) →
        getitem d i = some ⟨d.texts.getD i.toNat [],
          d.labels.getD i.toNat 0, d.txt_lens.getD i.toNat 0,
          d.snt_lens.getD i.toNat 0⟩) ∧
      (i < 0 → -(d.texts.length : ℤ) ≤ i →
        getitem d i =
          some ⟨d.texts.getD ((d.texts.length : ℤ) + i).toNat [],
            d.labels.getD ((d.texts.length : ℤ) + i).toNat 0,
            d.txt_lens.getD ((d.texts.length : ℤ) + i).toNat 0,
            d.snt_lens.getD ((d.texts.length : ℤ) + i).toNat 0⟩) := by
  have hpos : 0 ≤ i → i < (d.texts.length : ℤ) →
      getitem d i = some ⟨d.texts.getD i.toNat [],
        d.labels.getD i.toNat 0, d.txt_lens.getD i.toNat 0,
        d.snt_lens.getD i.toNat 0⟩ := by
    intro h0 hL
    have e1 := pyGetElem_nonneg d.texts i [] h0 hL
    have e2 := pyGetElem_nonneg d.labels i 0 h0 (by rw [hl]; exact hL)
    have e3 := pyGetElem_nonneg d.txt_lens i 0 h0 (by rw [htl]; exact hL)
    have e4 := pyGetElem_nonneg d.snt_lens i 0 h0 (by rw [hsl]; exact hL)
    unfold getitem
    rw [e1, e2, e3, e4]
  have hneg : i < 0 → -(d.texts.length : ℤ) ≤ i →
      getitem d i =
        some ⟨d.texts.getD ((d.texts.length : ℤ) + i).toNat [],
          d.labels.getD ((d.texts.length : ℤ) + i).toNat 0,
          d.txt_lens.getD ((d.texts.length : ℤ) + i).toNat 0,
          d.snt_lens.getD ((d.texts.length : ℤ) + i).toNat 0⟩ := by
    intro hn hg
    have e1 := pyGetElem_neg d.texts i [] hn hg
    have e2 := pyGetElem_neg d.labels i 0 hn (by rw [hl]; exact hg)
    have e3 := pyGetElem_neg d.txt_lens i 0 hn (by rw [htl]; exact hg)
    have e4 := pyGetElem_neg d.snt_lens i 0 hn (by rw [hsl]; exact hg)
    rw [hl] at e2
    rw [htl] at e3
    rw [hsl] at e4
    unfold getitem
    rw [e1, e2, e3, e4]
  refine ⟨⟨?_, ?_⟩, hpos, hneg⟩
  · intro h
    by_contra hc
    push_neg at hc
    rcases hc with ⟨hc1, hc2⟩
    by_cases h0 : 0 ≤ i
    · rw [hpos h0 (by omega)] at h
      cases h
    · rw [hneg (by omega) (by omega)] at h
      cases h
  · intro h
    have e1 : pyGetElem d.texts i = none :=
      (pyGetElem_eq_none_iff d.texts i).mpr h
    unfold getitem
    rw [e1]

/-- Witness for the amended C7 at a concrete two-document corpus and the
out-of-range index 5. -/
theorem getitem_bounds_witness :
    (getitem ⟨[[[7]], [[8]]], [0, 1], [2, 1], [3, 1]⟩ 5 = none ↔
      ((2 : ℤ) ≤ 5 ∨ (5 : ℤ) < -(2 : ℤ))) ∧
      ((0 : ℤ) ≤ 5 → (5 : ℤ) < 2 →
        getitem ⟨[[[7]], [[8]]], [0, 1], [2, 1], [3, 1]⟩ 5 =
          some ⟨[], 0, 0, 0⟩) ∧
      ((5 : ℤ) < 0 → -(2 : ℤ) ≤ 5 →
        getitem ⟨[[[7]], [[8]]], [0, 1], [2, 1], [3, 1]⟩ 5 =
          some ⟨[], 0, 0, 0⟩) :=
  getitem_bounds ⟨[[[7]], [[8]]], [0, 1], [2, 1], [3, 1]⟩ 5 rfl rfl rfl

/-- Claim C8 counterexample: with the corpus root (hence both `neg` and
`pos` subdirectories) absent, both globs yield no files and `_load_data`
returns the empty corpus without raising: the load does not fail. -/
theorem load_missing_dirs_counterexample :
    load_data (tokenize_plane_text (fun _ => []) (fun _ => []) id
      (fun _ => none) 100 40) ⟨none, none⟩ = some ⟨[], [], [], []⟩ := rfl

/-- Claim C8 (amended): an absent root/`neg`/`pos` directory is not an
error: `pathlib.Path.glob` on a missing directory yields nothing, so an
absent directory behaves exactly like an empty one — with both absent the
load silently returns the empty corpus, and with one absent it silently
loads only the other directory's files (a partial corpus). -/
theorem load_missing_dirs (tok : String → Option (List (List ℕ) × ℕ × ℕ))
    (fs : FileSys) :
    (fs.neg = none → fs.pos = none →
      load_data tok fs = some ⟨[], [], [], []⟩) ∧
      (fs.neg = none → load_data tok fs = load_data tok ⟨some [], fs.pos⟩) ∧
      (fs.pos = none → load_data tok fs = load_data tok ⟨fs.neg, some []⟩) := by
  obtain ⟨n, p⟩ := fs
  refine ⟨?_, ?_, ?_⟩
  · intro hn hp
    cases hn; cases hp; rfl
  · intro hn
    cases hn; rfl
  · intro hp
    cases hp; rfl

/-- Witness for the amended C8: a file system with `neg` absent loads the
same corpus as one where `neg` is an empty directory. -/
theorem load_missing_dirs_witness :
    load_data (fun _ => none) ⟨none, some ["x"]⟩ =
      load_data (fun _ => none) ⟨some [], some ["x"]⟩ :=
  (load_missing_dirs (fun _ => none) ⟨none, some ["x"]⟩).2.1 rfl

/-- Claim C9: sampler construction fails (the assert raises) if and only if
`batchSize < 1` or `diversity < 1`; otherwise it succeeds and stores the
given `batchSize` and `diversity` unchanged (no clamping), together with
the argsorted ids and the batch count `ceil(corpusSize / batchSize)`. -/
theorem sampler_init_validates (keys : List ℤ) (bs k : ℕ) :
    (SimilarRandSampler_init keys bs k = none ↔ bs < 1 ∨ k < 1) ∧
      (1 ≤ bs → 1 ≤ k →
        SimilarRandSampler_init keys bs k =
          some ⟨argsort keys, bs, k, (keys.length + bs - 1) / bs⟩) := by
  unfold SimilarRandSampler_init
  by_cases h : 1 ≤ bs ∧ 1 ≤ k
  · rw [if_pos h]
    refine ⟨⟨fun hc => ?_, fun hc => ?_⟩, fun _ _ => rfl⟩
    · cases hc
    · omega
  · rw [if_neg h]
    refine ⟨⟨fun _ => by omega, fun _ => rfl⟩, fun h1 h2 => absurd ⟨h1, h2⟩ h⟩

/-- Witness for C9 with `keys = [5, 1, 3]`, `bs = 2`, `diversity = 10`. -/
theorem sampler_init_validates_witness :
    1 ≤ 2 ∧ 1 ≤ 10 ∧
      SimilarRandSampler_init [5, 1, 3] 2 10 =
        some ⟨argsort [5, 1, 3], 2, 10,
          (([5, 1, 3] : List ℤ).length + 2 - 1) / 2⟩ :=
  ⟨by decide, by decide,
    (sampler_init_validates [5, 1, 3] 2 10).2 (by decide) (by decide)⟩

/-- Claim C10: `collate_docs` fails (the `max` over an empty sequence
raises) exactly on the empty batch; for a non-empty batch the error branch
is unreachable. -/
theorem collate_empty_fails (batch : List TItem) :
    collate_docs batch = none ↔ batch = [] := by
  cases batch with
  | nil => simp [collate_docs, pymax]
  | cons x xs => simp [collate_docs, pymax]

/-! ## Sampler lemmas -/

theorem takeSample_spec (i : ℕ) : ∀ (l : List ℕ) (n : ℕ), n ≤ l.length →
    (takeSample i l n).length = n ∧ (takeSample i l n).Subperm l := by
  intro l n h
  constructor
  · unfold takeSample
    rw [List.length_take]
    omega
  · exact (List.take_sublist n l).subperm

theorem takeSample_valid : ValidSample takeSample :=
  fun i => takeSample_spec i

/-- Claim C6: at every iteration step of the sampler, the batch drawn at
anchor position `idx` in the current pool has exactly
`min(batchSize, windowSize)` elements, comes entirely from positions `j`
of the pool with `max(0, idx - diversity*batchSize) ≤ j <
min(poolSize, idx + diversity*batchSize)` (the window around the anchor at
the time of the draw), and the window has at most `2*diversity*batchSize`
positions. -/
theorem sampler_locality (bs k : ℕ) (sample : List ℕ → ℕ → List ℕ)
    (pool : List ℕ) (idx : ℕ) (hidx : idx < pool.length)
    (hs : ∀ (l : List ℕ) (n : ℕ), n ≤ l.length →
      (sample l n).length = n ∧ (sample l n).Subperm l) :
    (samplerStep bs k sample pool idx).1.length =
        min bs (min pool.length (idx + k * bs) - (idx - k * bs)) ∧
      (∀ x ∈ (samplerStep bs k sample pool idx).1,
        ∃ j, idx - k * bs ≤ j ∧ j < min pool.length (idx + k * bs) ∧
          pool.getD j 0 = x) ∧
      min pool.length (idx + k * bs) - (idx - k * bs) ≤ 2 * (k * bs) := by
  have hwin : (samplerStep bs k sample pool idx).1 =
      sample ((pool.drop (idx - k * bs)).take
          (min pool.length (idx + k * bs) - (idx - k * bs)))
        (min bs (min pool.length (idx + k * bs) - (idx - k * bs))) := rfl
  have hwlen : ((pool.drop (idx - k * bs)).take
      (min pool.length (idx + k * bs) - (idx - k * bs))).length =
      min pool.length (idx + k * bs) - (idx - k * bs) := by
    rw [List.length_take, List.length_drop]
    omega
  have hn : min bs (min pool.length (idx + k * bs) - (idx - k * bs)) ≤
      ((pool.drop (idx - k * bs)).take
        (min pool.length (idx + k * bs) - (idx - k * bs))).length := by
    rw [hwlen]
    omega
  rcases hs _ _ hn with ⟨hslen, hssub⟩
  refine ⟨by rw [hwin]; exact hslen, ?_, by omega⟩
  intro x hx
  rw [hwin] at hx
  have hxw := hssub.subset hx
  rcases List.mem_iff_getElem.mp hxw with ⟨t, ht, he⟩
  rw [hwlen] at ht
  refine ⟨idx - k * bs + t, by omega, by omega, ?_⟩
  have hpe : ((pool.drop (idx - k * bs)).take
      (min pool.length (idx + k * bs) - (idx - k * bs)))[t]? =
      pool[idx - k * bs + t]? := by
    rw [List.getElem?_take, if_pos ht, List.getElem?_drop]
  have hlt : idx - k * bs + t < pool.length := by omega
  rw [List.getD_eq_getElem?_getD, ← hpe, List.getElem?_eq_getElem (by omega),
    he]
  rfl

/-- Witness for C6: pool `[5, 6, 7]`, anchor position 1, `bs = 1`,
`diversity = 1`, first-elements draw; the window is positions `[0, 2)`. -/
theorem sampler_locality_witness :
    (samplerStep 1 1 (takeSample 0) [5, 6, 7] 1).1.length = 1 ∧
      (∀ x ∈ (samplerStep 1 1 (takeSample 0) [5, 6, 7] 1).1,
        ∃ j, 0 ≤ j ∧ j < 2 ∧ ([5, 6, 7] : List ℕ).getD j 0 = x) ∧
      (2 : ℕ) ≤ 2 :=
  sampler_locality 1 1 (takeSample 0) [5, 6, 7] 1 (by decide)
    (takeSample_spec 0)

theorem samplerStep_perm (bs k : ℕ) (sample : List ℕ → ℕ → List ℕ)
    (pool : List ℕ) (idx : ℕ) (hbs : 1 ≤ bs) (hk : 1 ≤ k)
    (hidx : idx < pool.length) (hnd : pool.Nodup)
    (hs : ∀ (l : List ℕ) (n : ℕ), n ≤ l.length →
      (sample l n).length = n ∧ (sample l n).Subperm l) :
    ((samplerStep bs k sample pool idx).1 ++
        (samplerStep bs k sample pool idx).2).Perm pool ∧
      (samplerStep bs k sample pool idx).2.length < pool.length ∧
      (samplerStep bs k sample pool idx).2.Nodup := by
  have hkbs : 1 ≤ k * bs := Nat.mul_le_mul hk hbs
  have hwin : (samplerStep bs k sample pool idx).1 =
      sample ((pool.drop (idx - k * bs)).take
          (min pool.length (idx + k * bs) - (idx - k * bs)))
        (min bs (min pool.length (idx + k * bs) - (idx - k * bs))) := rfl
  have hfil : (samplerStep bs k sample pool idx).2 =
      pool.filter
        (fun e => decide (e ∉ (samplerStep bs k sample pool idx).1)) := rfl
  have hwlen : ((pool.drop (idx - k * bs)).take
      (min pool.length (idx + k * bs) - (idx - k * bs))).length =
      min pool.length (idx + k * bs) - (idx - k * bs) := by
    rw [List.length_take, List.length_drop]
    omega
  have hwsub : ((pool.drop (idx - k * bs)).take
      (min pool.length (idx + k * bs) - (idx - k * bs))).Sublist pool :=
    List.Sublist.trans (List.take_sublist _ _) (List.drop_sublist _ _)
  have hn : min bs (min pool.length (idx + k * bs) - (idx - k * bs)) ≤
      ((pool.drop (idx - k * bs)).take
        (min pool.length (idx + k * bs) - (idx - k * bs))).length := by
    rw [hwlen]
    omega
  rcases hs _ _ hn with ⟨hslen, hssub⟩
  rw [← hwin] at hslen hssub
  have hbsub : (samplerStep bs k sample pool idx).1.Subperm pool :=
    hssub.trans hwsub.subperm
  have hbnd : (samplerStep bs k sample pool idx).1.Nodup := by
    rcases hbsub with ⟨l, hlp, hls⟩
    exact hlp.nodup (hls.nodup hnd)
  have hbss : (samplerStep bs k sample pool idx).1 ⊆ pool := hbsub.subset
  have hperm1 : (pool.filter
      (fun e => decide (e ∈ (samplerStep bs k sample pool idx).1))).Perm
      (samplerStep bs k sample pool idx).1 := by
    apply (List.perm_ext_iff_of_nodup (hnd.filter _) hbnd).mpr
    intro a
    rw [List.mem_filter]
    constructor
    · intro ha
      exact of_decide_eq_true ha.2
    · intro ha
      exact ⟨hbss ha, decide_eq_true ha⟩
  have hsplit := List.filter_append_perm
    (fun e => decide (e ∈ (samplerStep bs k sample pool idx).1)) pool
  have hfil2 : (samplerStep bs k sample pool idx).2 =
      pool.filter
        (fun x => !decide (x ∈ (samplerStep bs k sample pool idx).1)) := by
    rw [hfil]
    simp only [decide_not]
  have hperm : ((samplerStep bs k sample pool idx).1 ++
      (samplerStep bs k sample pool idx).2).Perm pool := by
    rw [hfil2]
    exact (hperm1.symm.append_right _).trans hsplit
  have hlen1 : 1 ≤ (samplerStep bs k sample pool idx).1.length := by
    rw [hslen]
    omega
  have hlen : (samplerStep bs k sample pool idx).1.length +
      (samplerStep bs k sample pool idx).2.length = pool.length := by
    have := hperm.length_eq
    rw [List.length_append] at this
    exact this
  refine ⟨hperm, by omega, ?_⟩
  rw [hfil]
  exact hnd.filter _

theorem samplerIterAux_perm (bs k : ℕ) (anchor : ℕ → ℕ)
    (sample : ℕ → List ℕ → ℕ → List ℕ) (hbs : 1 ≤ bs) (hk : 1 ≤ k)
    (hvs : ValidSample sample) :
    ∀ (fuel step : ℕ) (pool : List ℕ), pool.Nodup → pool.length ≤ fuel →
      (samplerIterAux bs k anchor sample fuel step pool).Perm pool := by
  intro fuel
  induction fuel with
  | zero =>
    intro step pool hnd hfl
    have : pool = [] := List.eq_nil_of_length_eq_zero (by omega)
    rw [this]
    exact List.Perm.refl _
  | succ fuel ih =>
    intro step pool hnd hfl
    by_cases hp : pool.isEmpty
    · rw [samplerIterAux, if_pos hp]
      rw [List.isEmpty_iff.mp hp]
    · rw [samplerIterAux, if_neg hp]
      have hpos : 0 < pool.length := by
        cases pool with
        | nil => cases hp rfl
        | cons a l => exact Nat.succ_pos _
      have hidx : anchor step % pool.length < pool.length :=
        Nat.mod_lt _ hpos
      rcases samplerStep_perm bs k (sample step) pool
          (anchor step % pool.length) hbs hk hidx hnd (hvs step) with
        ⟨hperm, hshort, hnd2⟩
      have hrec := ih (step + 1)
        (samplerStep bs k (sample step) pool (anchor step % pool.length)).2
        hnd2 (by omega)
      exact ((hrec.append_left _).trans hperm)

/-- Claim C1: for every lengths list and every `batchSize ≥ 1`,
`diversity ≥ 1`, and for every behavior of the random draws satisfying the
`random.choice`/`random.sample` contracts, one full iteration of
`SimilarRandSampler.__iter__` yields a permutation of the corpus indices
`0 .. corpusSize-1`, and its total length equals the corpus size. -/
theorem sampler_coverage (keys : List ℤ) (bs k : ℕ) (anchor : ℕ → ℕ)
    (sample : ℕ → List ℕ → ℕ → List ℕ) (hbs : 1 ≤ bs) (hk : 1 ≤ k)
    (hvs : ValidSample sample) :
    (SimilarRandSampler_iter keys bs k anchor sample).Perm
        (List.range keys.length) ∧
      (SimilarRandSampler_iter keys bs k anchor sample).length =
        keys.length := by
  have hperm : (argsort keys).Perm (List.range keys.length) :=
    List.perm_insertionSort _ _
  have hnd : (argsort keys).Nodup :=
    hperm.symm.nodup (List.nodup_range _)
  have hiter : (SimilarRandSampler_iter keys bs k anchor sample).Perm
      (argsort keys) :=
    samplerIterAux_perm bs k anchor sample hbs hk hvs
      (argsort keys).length 0 (argsort keys) hnd (le_refl _)
  have hmain := hiter.trans hperm
  exact ⟨hmain, hmain.length_eq.trans (List.length_range _)⟩

/-- Witness for C1: `keys = [3, 1, 2]`, `bs = 2`, `diversity = 1`, anchor
always at position 0, first-elements draw. -/
theorem sampler_coverage_witness :
    1 ≤ 2 ∧ 1 ≤ 1 ∧
      ((SimilarRandSampler_iter [3, 1, 2] 2 1 (fun _ => 0)
            takeSample).Perm (List.range 3) ∧
        (SimilarRandSampler_iter [3, 1, 2] 2 1 (fun _ => 0)
            takeSample).length = 3) :=
  ⟨by decide, by decide,
    sampler_coverage [3, 1, 2] 2 1 (fun _ => 0) takeSample (by decide)
      (by decide) takeSample_valid⟩

/-! ## Collator lemmas -/

theorem getD_append_left {l1 l2 : List ℕ} {n : ℕ} (h : n < l1.length) :
    (l1 ++ l2).getD n 0 = l1.getD n 0 := by
  rw [List.getD_eq_getElem?_getD, List.getD_eq_getElem?_getD,
    List.getElem?_append, if_pos h]

theorem getD_append_right {l1 l2 : List ℕ} {n : ℕ} (h : l1.length ≤ n) :
    (l1 ++ l2).getD n 0 = l2.getD (n - l1.length) 0 := by
  rw [List.getD_eq_getElem?_getD, List.getD_eq_getElem?_getD,
    List.getElem?_append_right h]

theorem getD_replicate_zero {m n : ℕ} :
    (List.replicate m (0 : ℕ)).getD n 0 = 0 := by
  rw [List.getD_eq_getElem?_getD, List.getElem?_replicate]
  by_cases h : n < m
  · rw [if_pos h]; rfl
  · rw [if_neg h]; rfl

theorem getD_replicate_lt {α : Type} {r d : α} {m n : ℕ} (h : n < m) :
    (List.replicate m r).getD n d = r := by
  rw [List.getD_eq_getElem?_getD, List.getElem?_replicate, if_pos h]
  rfl

theorem fillDocAux_length : ∀ (txt : List (List ℕ)) (j : ℕ)
    (mat : List (List ℕ)),
    (fillDocAux j txt mat).length = mat.length := by
  intro txt
  induction txt with
  | nil => intro j mat; rfl
  | cons snt rest ih =>
    intro j mat
    rw [fillDocAux, ih]
    unfold writeRow
    rw [List.length_set]

theorem fillDocAux_getD : ∀ (txt : List (List ℕ)) (j : ℕ)
    (mat : List (List ℕ)) (j2 : ℕ), j + txt.length ≤ mat.length →
    (fillDocAux j txt mat).getD j2 [] =
      if j ≤ j2 ∧ j2 < j + txt.length then
        txt.getD (j2 - j) [] ++
          ((mat.getD j2 []).drop (txt.getD (j2 - j) []).length)
      else mat.getD j2 [] := by
  intro txt
  induction txt with
  | nil =>
    intro j mat j2 hb
    rw [fillDocAux, if_neg (by simp only [List.length_nil]; omega)]
  | cons snt rest ih =>
    intro j mat j2 hb
    rw [List.length_cons] at hb
    rw [fillDocAux]
    have hb2 : (j + 1) + rest.length ≤ (writeRow mat j snt).length := by
      unfold writeRow
      rw [List.length_set]
      omega
    rw [ih (j + 1) (writeRow mat j snt) j2 hb2]
    by_cases hj2 : j + 1 ≤ j2 ∧ j2 < j + 1 + rest.length
    · rw [if_pos hj2,
        if_pos (by simp only [List.length_cons]; omega)]
      have he : j2 - j = (j2 - (j + 1)) + 1 := by omega
      rw [he, List.getD_cons_succ]
      have hwr : (writeRow mat j snt).getD j2 [] = mat.getD j2 [] := by
        unfold writeRow
        rw [List.getD_eq_getElem?_getD, List.getElem?_set_ne (by omega),
          ← List.getD_eq_getElem?_getD]
      rw [hwr]
    · rw [if_neg hj2]
      by_cases hj : j2 = j
      · subst hj
        rw [if_pos (by simp only [List.length_cons]; omega)]
        have h0 : j2 - j2 = 0 := by omega
        rw [h0, List.getD_cons_zero]
        unfold writeRow
        rw [List.getD_eq_getElem?_getD,
          List.getElem?_set_self (by omega)]
        rfl
      · rw [if_neg (by simp only [List.length_cons]; omega)]
        unfold writeRow
        rw [List.getD_eq_getElem?_getD, List.getElem?_set_ne (by omega),
          ← List.getD_eq_getElem?_getD]

theorem fillDocAux_mem_length : ∀ (txt : List (List ℕ)) (j : ℕ)
    (mat : List (List ℕ)) (L : ℕ), j + txt.length ≤ mat.length →
    (∀ row ∈ mat, row.length = L) → (∀ snt ∈ txt, snt.length ≤ L) →
    ∀ row ∈ fillDocAux j txt mat, row.length = L := by
  intro txt
  induction txt with
  | nil => intro j mat L hb hm hs row hrow; exact hm row hrow
  | cons snt rest ih =>
    intro j mat L hb hm hs row hrow
    rw [List.length_cons] at hb
    rw [fillDocAux] at hrow
    refine ih (j + 1) (writeRow mat j snt) L ?_ ?_
      (fun s hsm => hs s (List.mem_cons_of_mem _ hsm)) row hrow
    · unfold writeRow
      rw [List.length_set]
      omega
    · intro r hr
      rcases List.mem_or_eq_of_mem_set hr with hr2 | hr2
      · exact hm r hr2
      · have hj : j < mat.length := by omega
        have hmem : mat.getD j [] ∈ mat := by
          rw [List.getD_eq_getElem?_getD, List.getElem?_eq_getElem hj]
          exact List.getElem_mem hj
        have hL : (mat.getD j []).length = L := hm _ hmem
        have hsl : snt.length ≤ L := hs snt (List.mem_cons_self _ _)
        rw [hr2, List.length_append, List.length_drop]
        omega

/-- Claim C2: for every non-empty batch of corpus items (each item carrying
the corpus invariants `txt_len = len(txt)` and
`len(snt) ≤ snt_len` for its sentences), `collate_docs` succeeds and
returns a feature tensor of shape `[N, max_txt, max_snt]` and a label
tensor of shape `[N, 1]` with row `i` equal to item i's label, and
every feature cell `(i, j, kk)` equals item i's sentence j's word kk when
that exists and `0` beyond the item's sentence/word extent (which is
exactly the value of `getD` with default 0 on the nested lists). -/
theorem collate_docs_correct (batch : List TItem) (max_snt max_txt : ℕ)
    (hms : pymax (batch.map (fun item => item.snt_len)) = some max_snt)
    (hmt : pymax (batch.map (fun item => item.txt_len)) = some max_txt)
    (hinv : ∀ item ∈ batch, item.txt_len = item.txt.length ∧
      ∀ snt ∈ item.txt, snt.length ≤ item.snt_len) :
    ∃ F T, collate_docs batch = some (F, T) ∧
      F.length = batch.length ∧ T.length = batch.length ∧
      (∀ mat ∈ F, mat.length = max_txt ∧
        ∀ row ∈ mat, row.length = max_snt) ∧
      (∀ (i : ℕ) (hi : i < batch.length),
        T.getD i [] = [(batch.get ⟨i, hi⟩).label] ∧
        ∀ (j kk : ℕ), j < max_txt → kk < max_snt →
          ((F.getD i []).getD j []).getD kk 0 =
            ((batch.get ⟨i, hi⟩).txt.getD j []).getD kk 0) := by
  have hbounds : ∀ item ∈ batch, item.txt.length ≤ max_txt ∧
      ∀ snt ∈ item.txt, snt.length ≤ max_snt := by
    intro item hitem
    rcases hinv item hitem with ⟨htxl, hsn⟩
    constructor
    · have := le_of_mem_pymax hmt
        (List.mem_map_of_mem (fun it => it.txt_len) hitem)
      omega
    · intro snt hsnt
      have h1 := hsn snt hsnt
      have h2 := le_of_mem_pymax hms
        (List.mem_map_of_mem (fun it => it.snt_len) hitem)
      omega
  refine ⟨batch.map (fun item => fillDoc item.txt
      (List.replicate max_txt (List.replicate max_snt 0))),
    batch.map (fun item => [item.label]), ?_, by rw [List.length_map],
    by rw [List.length_map], ?_, ?_⟩
  · unfold collate_docs
    rw [hms, hmt]
  · intro mat hmat
    rcases List.mem_map.mp hmat with ⟨item, hitem, hfd⟩
    rcases hbounds item hitem with ⟨htl, hsl⟩
    constructor
    · rw [← hfd]
      unfold fillDoc
      rw [fillDocAux_length, List.length_replicate]
    · intro row hrow
      rw [← hfd] at hrow
      refine fillDocAux_mem_length item.txt 0
        (List.replicate max_txt (List.replicate max_snt 0)) max_snt
        (by rw [List.length_replicate]; omega) ?_ hsl row hrow
      intro r hr
      rw [List.eq_of_mem_replicate hr, List.length_replicate]
  · intro i hi
    have hitem : batch.get ⟨i, hi⟩ ∈ batch := by
      rw [List.get_eq_getElem]
      exact List.getElem_mem hi
    rcases hbounds _ hitem with ⟨htl, hsl⟩
    constructor
    · rw [List.getD_eq_getElem?_getD, List.getElem?_map,
        List.getElem?_eq_getElem hi]
      rw [List.get_eq_getElem]
      rfl
    · intro j kk hj hkk
      have hF : (batch.map (fun item => fillDoc item.txt
          (List.replicate max_txt (List.replicate max_snt 0)))).getD i [] =
          fillDoc (batch.get ⟨i, hi⟩).txt
            (List.replicate max_txt (List.replicate max_snt 0)) := by
        rw [List.getD_eq_getElem?_getD, List.getElem?_map,
          List.getElem?_eq_getElem hi]
        rw [List.get_eq_getElem]
        rfl
      rw [hF]
      unfold fillDoc
      rw [fillDocAux_getD _ 0 _ j (by rw [List.length_replicate]; omega)]
      by_cases hin : 0 ≤ j ∧ j < 0 + (batch.get ⟨i, hi⟩).txt.length
      · rw [if_pos hin]
        have hj0 : j - 0 = j := by omega
        rw [hj0]
        have hzrow : (List.replicate max_txt
            (List.replicate max_snt (0 : ℕ))).getD j [] =
            List.replicate max_snt 0 := getD_replicate_lt hj
        rw [hzrow]
        by_cases hkin : kk < ((batch.get ⟨i, hi⟩).txt.getD j []).length
        · rw [getD_append_left hkin]
        · rw [getD_append_right (by omega)]
          rw [List.drop_replicate]
          rw [getD_replicate_zero]
          rw [List.getD_eq_default _ _ (by omega)]
      · rw [if_neg hin]
        have hjtxt : (batch.get ⟨i, hi⟩).txt.length ≤ j := by omega
        rw [getD_replicate_lt hj, getD_replicate_zero,
          List.getD_eq_default _ _ hjtxt]
        rfl

/-- Witness for C2 at a concrete two-item batch: items
`([[5, 6], [7]], label 1)` and `([[8]], label 0)`, giving
`max_txt = 2`, `max_snt = 2`. -/
theorem collate_docs_correct_witness :
    ∃ F T,
      collate_docs [⟨[[5, 6], [7]], 1, 2, 2⟩, ⟨[[8]], 0, 1, 1⟩] =
          some (F, T) ∧
        F.length = 2 ∧ T.length = 2 ∧
        (∀ mat ∈ F, mat.length = 2 ∧ ∀ row ∈ mat, row.length = 2) ∧
        (∀ (i : ℕ) (hi : i < 2),
          T.getD i [] =
              [(([⟨[[5, 6], [7]], 1, 2, 2⟩, ⟨[[8]], 0, 1, 1⟩] :
                List TItem).get ⟨i, hi⟩).label] ∧
            ∀ (j kk : ℕ), j < 2 → kk < 2 →
              ((F.getD i []).getD j []).getD kk 0 =
                ((([⟨[[5, 6], [7]], 1, 2, 2⟩, ⟨[[8]], 0, 1, 1⟩] :
                  List TItem).get ⟨i, hi⟩).txt.getD j []).getD kk 0) :=
  collate_docs_correct [⟨[[5, 6], [7]], 1, 2, 2⟩, ⟨[[8]], 0, 1, 1⟩] 2 2
    rfl rfl (by decide)

end DatasetPy
